import Mathlib

/-!
Verification development for the effectiveMobile subscription manager.

The Go source is shallowly embedded:
* `Date` models a `time.Time` at day granularity (the core only ever
  compares instants that are dates at midnight UTC, so `Before`/`After`
  are the lexicographic order on year/month/day).
* The domain structures (`Subscription`, `CreateInput`, `UpdateInput`,
  `ListFilter`, `SummaryFilter`) mirror the domain package.
* `Service.*` mirrors the service layer (`Service.Sum`, `maxTime`,
  `monthsBetween`, and the CRUD forwarding), parametrised by an abstract
  repository, exactly as the Go service depends on the `Repository`
  interface.
* `Storage.*` models the PostgreSQL adapter: the database is a list of
  rows and each SQL statement is translated to its standard relational
  meaning (the WHERE conditions the adapter builds, `ORDER BY`,
  `LIMIT`/`OFFSET`, `RETURNING`, rows-affected counting).
* `GoUuid` embeds `internal/lib/uuid`: Go strings are modelled as lists
  of runes (code points, as `Nat`), `len` is UTF-8 byte length, and
  `range` iteration yields byte offsets, as in Go.
-/

namespace EffectiveMobile

/-- A calendar date, modelling the year/month/day of a Go `time.Time`.
Fields are unbounded integers; a value coming from a real `time.Time`
always satisfies `Date.validMonth` below. -/
structure Date where
  year : Int
  month : Int
  day : Int
deriving DecidableEq, Repr

/-- Go `a.Before(b)`: strict instant order, lexicographic on the date. -/
def Date.before (a b : Date) : Bool :=
  decide (a.year < b.year) ||
    (decide (a.year = b.year) &&
      (decide (a.month < b.month) ||
        (decide (a.month = b.month) && decide (a.day < b.day))))

/-- Go `a.After(b)`: strict instant order, the reverse of `before`. -/
def Date.after (a b : Date) : Bool :=
  Date.before b a

/-- Month numbers of a real Go `time.Time` are always in `1..12`. -/
def Date.validMonth (d : Date) : Prop :=
  1 ≤ d.month ∧ d.month ≤ 12

instance (d : Date) : Decidable d.validMonth := by
  unfold Date.validMonth; infer_instance

/-- SQL / Go non-strict date comparison `a <= b`. -/
def Date.le (a b : Date) : Bool :=
  !(Date.before b a)

theorem Date.before_iff (a b : Date) :
    Date.before a b = true ↔
      (a.year < b.year ∨ (a.year = b.year ∧
        (a.month < b.month ∨ (a.month = b.month ∧ a.day < b.day)))) := by
  simp [Date.before]

theorem Date.le_iff (a b : Date) :
    Date.le a b = true ↔
      (a.year < b.year ∨ (a.year = b.year ∧
        (a.month < b.month ∨ (a.month = b.month ∧ a.day ≤ b.day)))) := by
  simp only [Date.le, Bool.not_eq_true', ← Bool.not_eq_true, Date.before_iff]
  constructor
  · intro h
    rcases lt_trichotomy a.year b.year with hy | hy | hy
    · exact Or.inl hy
    · refine Or.inr ⟨hy, ?_⟩
      rcases lt_trichotomy a.month b.month with hm | hm | hm
      · exact Or.inl hm
      · refine Or.inr ⟨hm, ?_⟩
        by_contra hd
        exact h (Or.inr ⟨hy.symm, Or.inr ⟨hm.symm, by omega⟩⟩)
      · exact absurd (Or.inr ⟨hy.symm, Or.inl hm⟩) h
    · exact absurd (Or.inl hy) h
  · intro h hc
    rcases h with hy | ⟨hy, hm⟩
    · rcases hc with h1 | ⟨h1, _⟩ <;> omega
    · rcases hm with hm | ⟨hm, hd⟩ <;>
        rcases hc with h1 | ⟨h1, h2 | ⟨h2, h3⟩⟩ <;> omega

/-- The domain `Subscription` entity. Identifiers are opaque strings. -/
structure Subscription where
  id : String
  serviceName : String
  price : Int
  userId : String
  startMonth : Date
  endMonth : Option Date
deriving DecidableEq, Repr

/-- Domain `CreateInput`. -/
structure CreateInput where
  serviceName : String
  price : Int
  userId : String
  startMonth : Date
  endMonth : Option Date
deriving DecidableEq, Repr

/-- Domain `UpdateInput` (no `userId`: it is immutable). -/
structure UpdateInput where
  serviceName : String
  price : Int
  startMonth : Date
  endMonth : Option Date
deriving DecidableEq, Repr

/-- Domain `ListFilter`; `none` means the Go pointer field is `nil`. -/
structure ListFilter where
  userId : Option String
  serviceName : Option String
  startMonthFrom : Option Date
  startMonthTo : Option Date
  activePeriodFrom : Option Date
  activePeriodTo : Option Date
  limit : Int
  offset : Int
deriving DecidableEq, Repr

/-- Domain `SummaryFilter`. -/
structure SummaryFilter where
  userId : Option String
  serviceName : Option String
  periodStart : Date
  periodEnd : Date
deriving DecidableEq, Repr

/-- Repository errors: `NotFound` is the distinguished domain error,
`failure` stands for any other (wrapped) persistence error. -/
inductive RepoErr where
  | notFound
  | failure (msg : String)
deriving DecidableEq, Repr

/-- `maxTime` from the service package. -/
def maxTime (a b : Date) : Date :=
  if Date.after a b then a else b

/-- `monthsBetween` from the service package, including its defensive
clamp of negative results to zero. -/
def monthsBetween (start «end» : Date) : Int :=
  let y := «end».year - start.year
  let m := «end».month - start.month
  let months := y * 12 + m + 1
  if months < 0 then 0 else months

/-- The per-subscription body of the `Sum` loop: returns the running
total unchanged for a skipped subscription, otherwise adds
`price * monthsBetween`. -/
def sumStep (periodStart periodEnd : Date) (total : Int)
    (sub : Subscription) : Int :=
  let overlapStart := maxTime sub.startMonth periodStart
  let subEnd :=
    match sub.endMonth with
    | some e => if Date.before e periodEnd then e else periodEnd
    | none => periodEnd
  if Date.after overlapStart subEnd then total
  else total + sub.price * monthsBetween overlapStart subEnd

/-- The accumulation loop of `Service.Sum` over the fetched rows. -/
def sumTotal (subs : List Subscription) (periodStart periodEnd : Date) : Int :=
  subs.foldl (sumStep periodStart periodEnd) 0

/-- The abstract repository the service depends on (the Go `Repository`
interface). Each operation is a pure function into `Except`. -/
structure Repo where
  createSubscription : CreateInput → Except RepoErr Subscription
  getSubscription : String → Except RepoErr Subscription
  updateSubscription : String → UpdateInput → Except RepoErr Subscription
  deleteSubscription : String → Except RepoErr Unit
  listSubscriptions : ListFilter → Except RepoErr (List Subscription)

namespace Service

/-- `Service.Create`: forwards to the repository, propagating any error. -/
def create (repo : Repo) (input : CreateInput) : Except RepoErr Subscription :=
  match repo.createSubscription input with
  | .error e => .error e
  | .ok sub => .ok sub

/-- `Service.Get`: forwards to the repository, propagating any error. -/
def get (repo : Repo) (id : String) : Except RepoErr Subscription :=
  match repo.getSubscription id with
  | .error e => .error e
  | .ok sub => .ok sub

/-- `Service.Update`: forwards to the repository, propagating any error. -/
def update (repo : Repo) (id : String) (input : UpdateInput) :
    Except RepoErr Subscription :=
  match repo.updateSubscription id input with
  | .error e => .error e
  | .ok sub => .ok sub

/-- `Service.Delete`: forwards to the repository, propagating any error. -/
def delete (repo : Repo) (id : String) : Except RepoErr Unit :=
  match repo.deleteSubscription id with
  | .error e => .error e
  | .ok _ => .ok ()

/-- `Service.List`: forwards to the repository, propagating any error. -/
def list (repo : Repo) (filter : ListFilter) :
    Except RepoErr (List Subscription) :=
  match repo.listSubscriptions filter with
  | .error e => .error e
  | .ok subs => .ok subs

/-- The `ListFilter` that `Service.Sum` builds from a `SummaryFilter`
(unset Go struct fields are their zero values). -/
def sumListFilter (input : SummaryFilter) : ListFilter :=
  { userId := input.userId
    serviceName := input.serviceName
    startMonthFrom := none
    startMonthTo := none
    activePeriodFrom := some input.periodStart
    activePeriodTo := some input.periodEnd
    limit := 0
    offset := 0 }

/-- `Service.Sum`: fetches the candidates through the repository with the
derived filter, then accumulates `price * monthsBetween` per candidate. -/
def sum (repo : Repo) (input : SummaryFilter) : Except RepoErr Int :=
  match repo.listSubscriptions (sumListFilter input) with
  | .error e => .error e
  | .ok subs => .ok (sumTotal subs input.periodStart input.periodEnd)

end Service

namespace Storage

/-- One WHERE conjunct: `user_id = $n` when the filter sets it. -/
def matchesUserId (f : ListFilter) (s : Subscription) : Bool :=
  match f.userId with
  | none => true
  | some u => s.userId = u

/-- One WHERE conjunct: `service_name = $n` when the filter sets it. -/
def matchesServiceName (f : ListFilter) (s : Subscription) : Bool :=
  match f.serviceName with
  | none => true
  | some n => s.serviceName = n

/-- One WHERE conjunct: `start_month >= $n` when the filter sets it. -/
def matchesStartFrom (f : ListFilter) (s : Subscription) : Bool :=
  match f.startMonthFrom with
  | none => true
  | some d => Date.le d s.startMonth

/-- One WHERE conjunct: `start_month <= $n` when the filter sets it. -/
def matchesStartTo (f : ListFilter) (s : Subscription) : Bool :=
  match f.startMonthTo with
  | none => true
  | some d => Date.le s.startMonth d

/-- The overlap conjuncts `start_month <= $to AND (end_month IS NULL OR
end_month >= $from)`, added only when both bounds are set. -/
def matchesActive (f : ListFilter) (s : Subscription) : Bool :=
  match f.activePeriodFrom, f.activePeriodTo with
  | some lo, some hi =>
      Date.le s.startMonth hi &&
        (match s.endMonth with
         | none => true
         | some e => Date.le lo e)
  | _, _ => true

/-- The full WHERE clause `ListSubscriptions` builds, as a row predicate. -/
def matchesFilter (f : ListFilter) (s : Subscription) : Bool :=
  matchesUserId f s && matchesServiceName f s && matchesStartFrom f s &&
    matchesStartTo f s && matchesActive f s

/-- Insert a row into a list sorted by `start_month` (helper for the
`ORDER BY start_month` modelling). -/
def insertByStart (s : Subscription) : List Subscription → List Subscription
  | [] => [s]
  | t :: ts =>
      if Date.le s.startMonth t.startMonth then s :: t :: ts
      else t :: insertByStart s ts

/-- `ORDER BY start_month`, modelled as an insertion sort. -/
def orderByStart : List Subscription → List Subscription
  | [] => []
  | s :: ss => insertByStart s (orderByStart ss)

/-- `OFFSET`, applied only when positive, then `LIMIT`, applied only when
positive — the clauses `ListSubscriptions` appends. -/
def paginate (f : ListFilter) (l : List Subscription) : List Subscription :=
  let afterOffset := if 0 < f.offset then l.drop f.offset.toNat else l
  if 0 < f.limit then afterOffset.take f.limit.toNat else afterOffset

/-- `Storage.ListSubscriptions`: the rows matching the built WHERE
clause, ordered by `start_month`, then paginated. The query itself never
fails in the model, so the result is always `ok`. -/
def listSubscriptions (db : List Subscription) (f : ListFilter) :
    Except RepoErr (List Subscription) :=
  .ok (paginate f (orderByStart (db.filter (matchesFilter f))))

/-- `Storage.GetSubscription`: `SELECT ... WHERE id = $1` via `QueryRow`;
`sql.ErrNoRows` becomes the domain `NotFound`. -/
def getSubscription (db : List Subscription) (id : String) :
    Except RepoErr Subscription :=
  match db.find? (fun r => r.id = id) with
  | some r => .ok r
  | none => .error .notFound

/-- The row an `UPDATE ... SET service_name, price, start_month,
end_month` produces from an existing row. -/
def applyUpdate (input : UpdateInput) (r : Subscription) : Subscription :=
  { r with
      serviceName := input.serviceName
      price := input.price
      startMonth := input.startMonth
      endMonth := input.endMonth }

/-- `Storage.UpdateSubscription`: `UPDATE ... WHERE id = $5 RETURNING ...`
via `QueryRow`; no matching row becomes the domain `NotFound` and the
table is untouched. Returns the result together with the new table. -/
def updateSubscription (db : List Subscription) (id : String)
    (input : UpdateInput) :
    Except RepoErr Subscription × List Subscription :=
  match db.find? (fun r => r.id = id) with
  | none => (.error .notFound, db)
  | some r =>
      (.ok (applyUpdate input r),
        db.map (fun x => if x.id = id then applyUpdate input x else x))

/-- `Storage.DeleteSubscription`: `DELETE FROM subscriptions WHERE id = $1`;
zero rows affected becomes the domain `NotFound`. Returns the result
together with the new table. -/
def deleteSubscription (db : List Subscription) (id : String) :
    Except RepoErr Unit × List Subscription :=
  let affected := db.countP (fun r => r.id = id)
  if affected = 0 then (.error .notFound, db)
  else (.ok (), db.filter (fun r => !(r.id = id : Bool)))

end Storage

/-! Specification-side definitions, written from the spec's words, to be
compared with the embedded code. -/

/-- Spec wording: `overlapStart = max(subscription.startMonth, periodStart)`. -/
def specMax (a b : Date) : Date :=
  if Date.le a b then b else a

/-- Spec wording: `effectiveEnd = subscription.endMonth if
subscription.endMonth is set and subscription.endMonth < periodEnd, else
periodEnd`. -/
def specEffectiveEnd (periodEnd : Date) (endMonth : Option Date) : Date :=
  match endMonth with
  | some e => if Date.before e periodEnd then e else periodEnd
  | none => periodEnd

/-- Spec wording: `monthsOverlap = (effectiveEnd.year - overlapStart.year)
* 12 + (effectiveEnd.month - overlapStart.month) + 1`. -/
def specMonthsOverlap (overlapStart effectiveEnd : Date) : Int :=
  (effectiveEnd.year - overlapStart.year) * 12 +
    (effectiveEnd.month - overlapStart.month) + 1

/-- Spec wording for one candidate: a candidate with
`overlapStart > effectiveEnd` contributes 0, any other contributes
`price * monthsOverlap`. -/
def specContribution (periodStart periodEnd : Date) (sub : Subscription) :
    Int :=
  let overlapStart := specMax sub.startMonth periodStart
  let effectiveEnd := specEffectiveEnd periodEnd sub.endMonth
  if Date.after overlapStart effectiveEnd then 0
  else sub.price * specMonthsOverlap overlapStart effectiveEnd

/-- Spec wording: the total is the sum of the candidates' contributions. -/
def specSumTotal (subs : List Subscription) (periodStart periodEnd : Date) :
    Int :=
  (subs.map (specContribution periodStart periodEnd)).sum

/-- Validity of the optional end month of a row coming from the store. -/
def endValid : Option Date → Prop
  | none => True
  | some e => e.validMonth

instance (o : Option Date) : Decidable (endValid o) := by
  cases o <;> (unfold endValid; infer_instance)

/-- All dates in a stored row have real `time.Time` month numbers. -/
def subValid (sub : Subscription) : Prop :=
  sub.startMonth.validMonth ∧ endValid sub.endMonth

instance (sub : Subscription) : Decidable (subValid sub) := by
  unfold subValid; infer_instance

theorem maxTime_eq_specMax (a b : Date) : maxTime a b = specMax a b := by
  cases h : Date.before b a <;>
    simp [maxTime, specMax, Date.after, Date.le, h]

theorem validMonth_maxTime {a b : Date} (ha : a.validMonth)
    (hb : b.validMonth) : (maxTime a b).validMonth := by
  unfold maxTime; split <;> assumption

theorem validMonth_specMax {a b : Date} (ha : a.validMonth)
    (hb : b.validMonth) : (specMax a b).validMonth := by
  unfold specMax; split <;> assumption

theorem validMonth_specEffectiveEnd {pe : Date} {o : Option Date}
    (hpe : pe.validMonth) (ho : endValid o) :
    (specEffectiveEnd pe o).validMonth := by
  cases o with
  | none => exact hpe
  | some e =>
      have ho2 : e.validMonth := ho
      simp only [specEffectiveEnd]
      split <;> assumption

/-- When the skip test does not fire, the code's clamped month count
coincides with the spec's raw formula. -/
theorem monthsBetween_eq_spec {s e : Date} (hs : s.validMonth)
    (he : e.validMonth) (hle : Date.le s e = true) :
    monthsBetween s e = specMonthsOverlap s e := by
  rcases (Date.le_iff s e).1 hle with hy | ⟨hy, hm | ⟨hm, _⟩⟩ <;>
    · simp only [monthsBetween, specMonthsOverlap]
      rcases hs with ⟨h1, h2⟩; rcases he with ⟨h3, h4⟩
      split <;> omega

/-- One iteration of the `Sum` loop adds exactly the spec's contribution. -/
theorem sumStep_eq_add_contribution {ps pe : Date} {sub : Subscription}
    (hps : ps.validMonth) (hpe : pe.validMonth) (hsub : subValid sub)
    (t : Int) :
    sumStep ps pe t sub = t + specContribution ps pe sub := by
  unfold sumStep specContribution
  rw [maxTime_eq_specMax]
  have hsubEnd :
      (match sub.endMonth with
        | some e => if Date.before e pe then e else pe
        | none => pe) = specEffectiveEnd pe sub.endMonth := by
    cases sub.endMonth <;> rfl
  rw [hsubEnd]
  have hvs : (specMax sub.startMonth ps).validMonth :=
    validMonth_specMax hsub.1 hps
  have hve : (specEffectiveEnd pe sub.endMonth).validMonth :=
    validMonth_specEffectiveEnd hpe hsub.2
  cases hcmp : Date.after (specMax sub.startMonth ps)
      (specEffectiveEnd pe sub.endMonth) with
  | true => simp [hcmp]
  | false =>
      have hle : Date.le (specMax sub.startMonth ps)
          (specEffectiveEnd pe sub.endMonth) = true := by
        simp only [Date.le, Date.after] at hcmp ⊢
        simp [hcmp]
      simp [hcmp, monthsBetween_eq_spec hvs hve hle]

/-- The whole loop computes the spec's total, for any initial accumulator. -/
theorem sumTotal_eq_specSumTotal {subs : List Subscription} {ps pe : Date}
    (hps : ps.validMonth) (hpe : pe.validMonth)
    (hsubs : ∀ sub ∈ subs, subValid sub) :
    sumTotal subs ps pe = specSumTotal subs ps pe := by
  suffices h : ∀ t : Int,
      subs.foldl (sumStep ps pe) t = t + specSumTotal subs ps pe by
    simpa [sumTotal] using h 0
  induction subs with
  | nil => intro t; simp [specSumTotal]
  | cons head tail ih =>
      intro t
      have hhead : subValid head := hsubs head (List.mem_cons_self head tail)
      have htail : ∀ sub ∈ tail, subValid sub := fun sub hm =>
        hsubs sub (List.mem_cons_of_mem head hm)
      simp only [List.foldl_cons,
        sumStep_eq_add_contribution hps hpe hhead t]
      rw [ih htail]
      simp [specSumTotal, add_assoc]

/-- Claim C1: for every `SummaryFilter` and every candidate list the
repository returns for the derived `ListFilter` (`activePeriodFrom =
periodStart`, `activePeriodTo = periodEnd`, `userId`/`serviceName`
passed through, all other fields zero), `Service.Sum` returns the sum
over the candidates of `price * monthsOverlap`, where `overlapStart =
max(startMonth, periodStart)`, `effectiveEnd` clamps an end month that
lies before `periodEnd` (open-ended subscriptions are priced only
through `periodEnd`), and a candidate with `overlapStart > effectiveEnd`
contributes 0; over an empty candidate list it returns 0 and no error. -/
theorem sum_computes_clamped_overlap_total (repo : Repo)
    (input : SummaryFilter) (subs : List Subscription)
    (hps : input.periodStart.validMonth) (hpe : input.periodEnd.validMonth)
    (hsubs : ∀ sub ∈ subs, subValid sub)
    (hrepo : repo.listSubscriptions
      { userId := input.userId
        serviceName := input.serviceName
        startMonthFrom := none
        startMonthTo := none
        activePeriodFrom := some input.periodStart
        activePeriodTo := some input.periodEnd
        limit := 0
        offset := 0 } = .ok subs) :
    Service.sum repo input =
      .ok (specSumTotal subs input.periodStart input.periodEnd) ∧
    (subs = [] → Service.sum repo input = .ok 0) := by
  have hfilter : Service.sumListFilter input =
      { userId := input.userId
        serviceName := input.serviceName
        startMonthFrom := none
        startMonthTo := none
        activePeriodFrom := some input.periodStart
        activePeriodTo := some input.periodEnd
        limit := 0
        offset := 0 } := rfl
  have hmain : Service.sum repo input =
      .ok (specSumTotal subs input.periodStart input.periodEnd) := by
    unfold Service.sum
    rw [hfilter, hrepo]
    dsimp only
    rw [sumTotal_eq_specSumTotal hps hpe hsubs]
  refine ⟨hmain, fun hnil => ?_⟩
  rw [hmain, hnil]
  simp [specSumTotal]

/-- Witness for C1 at a concrete repository, filter and candidate list. -/
theorem sum_computes_clamped_overlap_total_witness :
    Service.sum
      { createSubscription := fun _ => .error .notFound
        getSubscription := fun _ => .error .notFound
        updateSubscription := fun _ _ => .error .notFound
        deleteSubscription := fun _ => .error .notFound
        listSubscriptions := fun _ =>
          .ok [{ id := "a", serviceName := "tv", price := 100,
                 userId := "u", startMonth := ⟨2023, 1, 1⟩,
                 endMonth := none }] }
      { userId := none, serviceName := none,
        periodStart := ⟨2023, 1, 1⟩, periodEnd := ⟨2023, 3, 1⟩ } =
      .ok 300 := by
  have h := sum_computes_clamped_overlap_total
    { createSubscription := fun _ => .error .notFound
      getSubscription := fun _ => .error .notFound
      updateSubscription := fun _ _ => .error .notFound
      deleteSubscription := fun _ => .error .notFound
      listSubscriptions := fun _ =>
        .ok [{ id := "a", serviceName := "tv", price := 100,
               userId := "u", startMonth := ⟨2023, 1, 1⟩,
               endMonth := none }] }
    { userId := none, serviceName := none,
      periodStart := ⟨2023, 1, 1⟩, periodEnd := ⟨2023, 3, 1⟩ }
    [{ id := "a", serviceName := "tv", price := 100, userId := "u",
       startMonth := ⟨2023, 1, 1⟩, endMonth := none }]
    (by decide) (by decide) (by decide) rfl
  rw [h.1]; rfl

/-- The normalized month representation the spec describes: the first
day of a calendar month, with a real `time.Time` month number. -/
def normalized (d : Date) : Prop :=
  d.day = 1 ∧ d.validMonth

instance (d : Date) : Decidable (normalized d) := by
  unfold normalized; infer_instance

/-- Normalization of the optional end month. -/
def endNormalized : Option Date → Prop
  | none => True
  | some e => normalized e

instance (o : Option Date) : Decidable (endNormalized o) := by
  cases o <;> (unfold endNormalized; infer_instance)

/-- All dates of a row are in the normalized month representation. -/
def subNormalized (sub : Subscription) : Prop :=
  normalized sub.startMonth ∧ endNormalized sub.endMonth

instance (sub : Subscription) : Decidable (subNormalized sub) := by
  unfold subNormalized; infer_instance

/-- The linear index of a calendar month. -/
def monthIdx (d : Date) : Int :=
  12 * d.year + d.month

/-- A subscription reduced to what month-granularity summation needs. -/
structure MonthSub where
  price : Int
  startIdx : Int
  endIdx : Option Int
deriving DecidableEq, Repr

/-- Forget the days: keep the price and the month indices. -/
def toMonthSub (sub : Subscription) : MonthSub :=
  { price := sub.price
    startIdx := monthIdx sub.startMonth
    endIdx := sub.endMonth.map monthIdx }

/-- The `Sum` loop body rewritten on month indices only. -/
def sumStepIdx (psI peI : Int) (t : Int) (m : MonthSub) : Int :=
  let oS := max m.startIdx psI
  let eE :=
    match m.endIdx with
    | some e => if e < peI then e else peI
    | none => peI
  if eE < oS then t else t + m.price * (eE - oS + 1)

/-- The `Sum` accumulation on month indices only. -/
def sumTotalIdx (ms : List MonthSub) (psI peI : Int) : Int :=
  ms.foldl (sumStepIdx psI peI) 0

/-- On normalized dates, the instant order is the month-index order. -/
theorem before_iff_monthIdx {a b : Date} (ha : normalized a)
    (hb : normalized b) :
    Date.before a b = true ↔ monthIdx a < monthIdx b := by
  rw [Date.before_iff]
  rcases ha with ⟨hd1, hm1, hm2⟩
  rcases hb with ⟨hd2, hm3, hm4⟩
  unfold monthIdx
  omega

/-- `maxTime` returns one of its arguments. -/
theorem maxTime_cases (a b : Date) : maxTime a b = a ∨ maxTime a b = b := by
  unfold maxTime; split
  · exact Or.inl rfl
  · exact Or.inr rfl

/-- On normalized dates, `maxTime` computes the max of the month indices. -/
theorem monthIdx_maxTime {a b : Date} (ha : normalized a)
    (hb : normalized b) :
    monthIdx (maxTime a b) = max (monthIdx a) (monthIdx b) := by
  unfold maxTime
  by_cases h : Date.after a b = true
  · rw [if_pos h]
    have h2 : Date.before b a = true := h
    have hlt := (before_iff_monthIdx hb ha).1 h2
    exact (max_eq_left (le_of_lt hlt)).symm
  · rw [if_neg h]
    have hnot : ¬ monthIdx b < monthIdx a := fun hc =>
      h ((before_iff_monthIdx hb ha).2 hc)
    exact (max_eq_right (by omega)).symm

/-- When the start month index does not exceed the end month index,
`monthsBetween` is exactly the index difference plus one. -/
theorem monthsBetween_idx {s e : Date}
    (h : monthIdx s ≤ monthIdx e) :
    monthsBetween s e = monthIdx e - monthIdx s + 1 := by
  simp only [monthIdx] at h
  simp only [monthsBetween, monthIdx]
  split <;> omega

/-- The guarded branch of the loop, on normalized dates, equals its
month-index counterpart. -/
theorem branch_eq_idx {oS eE : Date} (ho : normalized oS)
    (he : normalized eE) (t p : Int) :
    (if Date.after oS eE then t else t + p * monthsBetween oS eE) =
      (if monthIdx eE < monthIdx oS then t
       else t + p * (monthIdx eE - monthIdx oS + 1)) := by
  by_cases hc : monthIdx eE < monthIdx oS
  · have hb : Date.after oS eE = true := by
      unfold Date.after
      exact (before_iff_monthIdx he ho).2 hc
    rw [hb, if_pos hc]
    rfl
  · have hb : Date.after oS eE = false := by
      unfold Date.after
      rw [← Bool.not_eq_true]
      rw [before_iff_monthIdx he ho]
      exact hc
    rw [hb, if_neg hc]
    simp only [Bool.false_eq_true, if_false]
    rw [monthsBetween_idx (by omega)]

/-- One loop iteration on normalized inputs equals the month-index
iteration on the projected subscription. -/
theorem sumStep_eq_idx {ps pe : Date} {sub : Subscription}
    (hps : normalized ps) (hpe : normalized pe)
    (hsub : subNormalized sub) (t : Int) :
    sumStep ps pe t sub =
      sumStepIdx (monthIdx ps) (monthIdx pe) t (toMonthSub sub) := by
  have hstart : normalized sub.startMonth := hsub.1
  have hmaxnorm : normalized (maxTime sub.startMonth ps) := by
    rcases maxTime_cases sub.startMonth ps with h | h <;> rw [h] <;>
      assumption
  have hmaxidx := monthIdx_maxTime hstart hps
  cases hend : sub.endMonth with
  | none =>
      have hres : sumStepIdx (monthIdx ps) (monthIdx pe) t (toMonthSub sub) =
          if monthIdx pe < max (monthIdx sub.startMonth) (monthIdx ps) then t
          else t + sub.price *
            (monthIdx pe - max (monthIdx sub.startMonth) (monthIdx ps) + 1) := by
        simp only [sumStepIdx, toMonthSub, hend, Option.map]
      rw [hres]
      simp only [sumStep, hend]
      rw [branch_eq_idx hmaxnorm hpe, hmaxidx]
  | some e =>
      have henorm : normalized e := by
        have h2 := hsub.2
        rw [hend] at h2
        exact h2
      have heE : normalized (if Date.before e pe then e else pe) := by
        split <;> assumption
      have hidxeE : monthIdx (if Date.before e pe then e else pe) =
          (if monthIdx e < monthIdx pe then monthIdx e else monthIdx pe) := by
        by_cases hlt : monthIdx e < monthIdx pe
        · rw [if_pos ((before_iff_monthIdx henorm hpe).2 hlt), if_pos hlt]
        · have hb : Date.before e pe = false := by
            rw [← Bool.not_eq_true, before_iff_monthIdx henorm hpe]
            exact hlt
          rw [hb, if_neg hlt]
          simp
      have hres : sumStepIdx (monthIdx ps) (monthIdx pe) t (toMonthSub sub) =
          if (if monthIdx e < monthIdx pe then monthIdx e else monthIdx pe) <
              max (monthIdx sub.startMonth) (monthIdx ps) then t
          else t + sub.price *
            ((if monthIdx e < monthIdx pe then monthIdx e else monthIdx pe) -
              max (monthIdx sub.startMonth) (monthIdx ps) + 1) := by
        simp only [sumStepIdx, toMonthSub, hend, Option.map]
      rw [hres]
      simp only [sumStep, hend]
      rw [branch_eq_idx hmaxnorm heE, hmaxidx, hidxeE]

/-- Claim C2 (amended): on inputs in the normalized month representation
(every date is the first day of its month), the core's range comparisons
and `Sum` depend only on the year and month of each date: `sumTotal`
factors through the month indices of all dates involved. -/
theorem sum_factors_through_months_on_normalized
    (subs : List Subscription) (ps pe : Date)
    (hps : normalized ps) (hpe : normalized pe)
    (hsubs : ∀ sub ∈ subs, subNormalized sub) :
    sumTotal subs ps pe =
      sumTotalIdx (subs.map toMonthSub) (monthIdx ps) (monthIdx pe) := by
  suffices h : ∀ t : Int,
      subs.foldl (sumStep ps pe) t =
        (subs.map toMonthSub).foldl
          (sumStepIdx (monthIdx ps) (monthIdx pe)) t by
    simpa [sumTotal, sumTotalIdx] using h 0
  induction subs with
  | nil => intro t; simp
  | cons head tail ih =>
      intro t
      have hh : subNormalized head := hsubs head (List.mem_cons_self head tail)
      have ht : ∀ sub ∈ tail, subNormalized sub := fun sub hm =>
        hsubs sub (List.mem_cons_of_mem head hm)
      simp only [List.foldl_cons, List.map_cons]
      rw [sumStep_eq_idx hps hpe hh t]
      exact ih ht _

/-- Witness for the amended C2 at a concrete normalized input. -/
theorem sum_factors_through_months_on_normalized_witness :
    sumTotal
      [{ id := "n", serviceName := "tv", price := 40, userId := "u",
         startMonth := ⟨2022, 12, 1⟩, endMonth := some ⟨2023, 2, 1⟩ }]
      ⟨2023, 1, 1⟩ ⟨2023, 3, 1⟩ =
      sumTotalIdx
        (List.map toMonthSub
          [{ id := "n", serviceName := "tv", price := 40, userId := "u",
             startMonth := ⟨2022, 12, 1⟩, endMonth := some ⟨2023, 2, 1⟩ }])
        (monthIdx ⟨2023, 1, 1⟩) (monthIdx ⟨2023, 3, 1⟩) :=
  sum_factors_through_months_on_normalized
    [{ id := "n", serviceName := "tv", price := 40, userId := "u",
       startMonth := ⟨2022, 12, 1⟩, endMonth := some ⟨2023, 2, 1⟩ }]
    ⟨2023, 1, 1⟩ ⟨2023, 3, 1⟩ (by decide) (by decide) (by decide)

/-- Counterexample to C2 as stated: two `periodEnd` dates in the same
calendar month (2023-06-01 and 2023-06-10) give different totals when a
subscription starts on 2023-06-05, because `Before`/`After` compare full
instants, not months. -/
theorem sum_day_of_month_sensitive_cex :
    sumTotal
      [{ id := "s", serviceName := "tv", price := 100, userId := "u",
         startMonth := ⟨2023, 6, 5⟩, endMonth := none }]
      ⟨2023, 1, 1⟩ ⟨2023, 6, 1⟩ = 0 ∧
    sumTotal
      [{ id := "s", serviceName := "tv", price := 100, userId := "u",
         startMonth := ⟨2023, 6, 5⟩, endMonth := none }]
      ⟨2023, 1, 1⟩ ⟨2023, 6, 10⟩ = 100 ∧
    (⟨2023, 6, 1⟩ : Date).year = (⟨2023, 6, 10⟩ : Date).year ∧
    (⟨2023, 6, 1⟩ : Date).month = (⟨2023, 6, 10⟩ : Date).month := by
  decide

/-- Month-granularity comparison of two dates (the glossary's "month
value" order, which ignores the day). -/
def monthLe (a b : Date) : Prop :=
  a.year < b.year ∨ (a.year = b.year ∧ a.month ≤ b.month)

instance (a b : Date) : Decidable (monthLe a b) := by
  unfold monthLe; infer_instance

/-- The clamp in `monthsBetween` makes the result non-negative. -/
theorem monthsBetween_nonneg (s e : Date) : 0 ≤ monthsBetween s e := by
  simp only [monthsBetween]; split <;> omega

/-- With a non-negative price, one loop iteration never decreases the
running total. -/
theorem sumStep_mono (ps pe : Date) (t : Int) (sub : Subscription)
    (hprice : 0 ≤ sub.price) : t ≤ sumStep ps pe t sub := by
  simp only [sumStep]
  split
  · exact le_refl t
  · have h := mul_nonneg hprice (monthsBetween_nonneg
      (maxTime sub.startMonth ps)
      (match sub.endMonth with
        | some e => if Date.before e pe then e else pe
        | none => pe))
    omega

/-- Claim C4: for month values `overlapStart ≤ effectiveEnd` (comparison
at month granularity, with real `time.Time` month numbers), the months
count used by `Sum` equals
`(end.year - start.year) * 12 + (end.month - start.month) + 1`, equals 1
on a single month, and a single-month subscription (start = end =
2023-06, price 50) inside the window [2023-01, 2023-12] contributes 50. -/
theorem monthsBetween_inclusive_formula (s e : Date) (hs : s.validMonth)
    (he : e.validMonth) (hle : monthLe s e) :
    monthsBetween s e =
      (e.year - s.year) * 12 + (e.month - s.month) + 1 ∧
    (s.year = e.year ∧ s.month = e.month → monthsBetween s e = 1) ∧
    sumTotal
      [{ id := "a", serviceName := "tv", price := 50, userId := "u",
         startMonth := ⟨2023, 6, 1⟩, endMonth := some ⟨2023, 6, 1⟩ }]
      ⟨2023, 1, 1⟩ ⟨2023, 12, 1⟩ = 50 := by
  rcases hs with ⟨h1, h2⟩
  rcases he with ⟨h3, h4⟩
  have hform : monthsBetween s e =
      (e.year - s.year) * 12 + (e.month - s.month) + 1 := by
    rcases hle with hy | ⟨hy, hm⟩ <;>
      · simp only [monthsBetween]
        split <;> omega
  refine ⟨hform, fun hsame => ?_, by decide⟩
  rw [hform]
  omega

/-- Witness for C4 at the concrete pair 2023-06 and 2023-08. -/
theorem monthsBetween_inclusive_formula_witness :
    monthsBetween ⟨2023, 6, 1⟩ ⟨2023, 8, 1⟩ =
      ((2023 : Int) - 2023) * 12 + ((8 : Int) - 6) + 1 :=
  (monthsBetween_inclusive_formula ⟨2023, 6, 1⟩ ⟨2023, 8, 1⟩
    (by decide) (by decide) (by decide)).1

/-- Claim C5: the months computation used by `Sum` never yields a
negative value — any raw result below zero is clamped to zero — and with
a non-negative price an iteration of the loop never decreases the total,
so no such subscription makes a negative contribution. -/
theorem monthsBetween_never_negative :
    (∀ s e : Date, 0 ≤ monthsBetween s e) ∧
    (∀ s e : Date, monthsBetween s e =
      max 0 ((e.year - s.year) * 12 + (e.month - s.month) + 1)) ∧
    (∀ (ps pe : Date) (t : Int) (sub : Subscription), 0 ≤ sub.price →
      t ≤ sumStep ps pe t sub) := by
  refine ⟨monthsBetween_nonneg, fun s e => ?_, sumStep_mono⟩
  simp only [monthsBetween]
  split <;> omega

/-- Witness for C5 at a concrete accumulator and subscription. -/
theorem monthsBetween_never_negative_witness :
    (5 : Int) ≤ sumStep ⟨2023, 1, 1⟩ ⟨2023, 3, 1⟩ 5
      { id := "a", serviceName := "tv", price := 7, userId := "u",
        startMonth := ⟨2023, 1, 1⟩, endMonth := none } :=
  monthsBetween_never_negative.2.2 ⟨2023, 1, 1⟩ ⟨2023, 3, 1⟩ 5
    { id := "a", serviceName := "tv", price := 7, userId := "u",
      startMonth := ⟨2023, 1, 1⟩, endMonth := none } (by decide)

/-- With non-negative prices the loop never decreases the accumulator. -/
theorem foldl_sumStep_le {subs : List Subscription} {ps pe : Date}
    (hprices : ∀ sub ∈ subs, 0 ≤ sub.price) (t : Int) :
    t ≤ subs.foldl (sumStep ps pe) t := by
  induction subs generalizing t with
  | nil => simp
  | cons head tail ih =>
      have hh : 0 ≤ head.price := hprices head (List.mem_cons_self head tail)
      have ht : ∀ sub ∈ tail, 0 ≤ sub.price := fun sub hm =>
        hprices sub (List.mem_cons_of_mem head hm)
      calc t ≤ sumStep ps pe t head := sumStep_mono ps pe t head hh
        _ ≤ tail.foldl (sumStep ps pe) (sumStep ps pe t head) := ih ht _

/-- Claim C10: when every candidate the repository returns has a
non-negative price, `Service.Sum` returns a non-negative total. -/
theorem sum_nonneg_for_nonneg_prices (repo : Repo) (input : SummaryFilter)
    (subs : List Subscription)
    (hrepo : repo.listSubscriptions (Service.sumListFilter input) = .ok subs)
    (hprices : ∀ sub ∈ subs, 0 ≤ sub.price) :
    Service.sum repo input =
      .ok (sumTotal subs input.periodStart input.periodEnd) ∧
    0 ≤ sumTotal subs input.periodStart input.periodEnd := by
  constructor
  · unfold Service.sum
    rw [hrepo]
  · exact foldl_sumStep_le hprices 0

/-- Witness for C10 at a concrete repository and filter. -/
theorem sum_nonneg_for_nonneg_prices_witness :
    Service.sum
      { createSubscription := fun _ => .error .notFound
        getSubscription := fun _ => .error .notFound
        updateSubscription := fun _ _ => .error .notFound
        deleteSubscription := fun _ => .error .notFound
        listSubscriptions := fun _ =>
          .ok [{ id := "b", serviceName := "music", price := 30,
                 userId := "u", startMonth := ⟨2022, 11, 1⟩,
                 endMonth := some ⟨2023, 2, 1⟩ }] }
      { userId := none, serviceName := none,
        periodStart := ⟨2023, 1, 1⟩, periodEnd := ⟨2023, 6, 1⟩ } =
      .ok (sumTotal
        [{ id := "b", serviceName := "music", price := 30, userId := "u",
           startMonth := ⟨2022, 11, 1⟩, endMonth := some ⟨2023, 2, 1⟩ }]
        ⟨2023, 1, 1⟩ ⟨2023, 6, 1⟩) ∧
    (0 : Int) ≤ sumTotal
      [{ id := "b", serviceName := "music", price := 30, userId := "u",
         startMonth := ⟨2022, 11, 1⟩, endMonth := some ⟨2023, 2, 1⟩ }]
      ⟨2023, 1, 1⟩ ⟨2023, 6, 1⟩ :=
  sum_nonneg_for_nonneg_prices
    { createSubscription := fun _ => .error .notFound
      getSubscription := fun _ => .error .notFound
      updateSubscription := fun _ _ => .error .notFound
      deleteSubscription := fun _ => .error .notFound
      listSubscriptions := fun _ =>
        .ok [{ id := "b", serviceName := "music", price := 30,
               userId := "u", startMonth := ⟨2022, 11, 1⟩,
               endMonth := some ⟨2023, 2, 1⟩ }] }
    { userId := none, serviceName := none,
      periodStart := ⟨2023, 1, 1⟩, periodEnd := ⟨2023, 6, 1⟩ }
    [{ id := "b", serviceName := "music", price := 30, userId := "u",
       startMonth := ⟨2022, 11, 1⟩, endMonth := some ⟨2023, 2, 1⟩ }]
    rfl (by decide)

/-! Claim C3: the repository's overlap filter. -/

/-- Spec wording for the non-overlap filters: exact match on userId and
serviceName, inclusive range on startMonth. -/
def specOtherPass (f : ListFilter) (s : Subscription) : Bool :=
  Storage.matchesUserId f s && Storage.matchesServiceName f s &&
    Storage.matchesStartFrom f s && Storage.matchesStartTo f s

/-- Spec wording: `endMonth IS NULL OR endMonth >= activePeriodFrom`. -/
def endOverlap (lo : Date) : Option Date → Prop
  | none => True
  | some e => Date.le lo e = true

instance (lo : Date) (o : Option Date) : Decidable (endOverlap lo o) := by
  cases o <;> (unfold endOverlap; infer_instance)

/-- Spec wording: the subscription's interval intersects `[lo, hi]`,
i.e. `startMonth <= activePeriodTo AND (endMonth IS NULL OR endMonth >=
activePeriodFrom)`. -/
def specOverlap (lo hi : Date) (s : Subscription) : Prop :=
  Date.le s.startMonth hi = true ∧ endOverlap lo s.endMonth

instance (lo hi : Date) (s : Subscription) : Decidable (specOverlap lo hi s) := by
  unfold specOverlap; infer_instance

theorem mem_insertByStart {x s : Subscription} {l : List Subscription} :
    x ∈ Storage.insertByStart s l ↔ x = s ∨ x ∈ l := by
  induction l with
  | nil => simp [Storage.insertByStart]
  | cons t ts ih =>
      simp only [Storage.insertByStart]
      split
      · simp
      · simp only [List.mem_cons, ih]
        tauto

theorem mem_orderByStart {x : Subscription} {l : List Subscription} :
    x ∈ Storage.orderByStart l ↔ x ∈ l := by
  induction l with
  | nil => simp [Storage.orderByStart]
  | cons t ts ih =>
      simp [Storage.orderByStart, mem_insertByStart, ih]

theorem paginate_id {f : ListFilter} {l : List Subscription}
    (hlim : f.limit ≤ 0) (hoff : f.offset ≤ 0) :
    Storage.paginate f l = l := by
  simp only [Storage.paginate]
  rw [if_neg (by omega), if_neg (by omega)]

theorem matchesFilter_overlap_iff {f : ListFilter} {lo hi : Date}
    (hlo : f.activePeriodFrom = some lo) (hhi : f.activePeriodTo = some hi)
    (s : Subscription) :
    Storage.matchesFilter f s = true ↔
      (specOtherPass f s = true ∧ specOverlap lo hi s) := by
  unfold Storage.matchesFilter specOtherPass specOverlap
      Storage.matchesActive
  rw [hlo, hhi]
  cases hse : s.endMonth with
  | none => simp [endOverlap, Bool.and_assoc, and_assoc]
  | some e => simp [endOverlap, Bool.and_assoc, and_assoc]

/-- Claim C3: with both `activePeriodFrom` and `activePeriodTo` set (and
no pagination requested) the repository's list operation returns exactly
the rows that pass the other filters and whose interval satisfies
`startMonth <= activePeriodTo AND (endMonth IS NULL OR endMonth >=
activePeriodFrom)`; when either bound is absent no overlap condition is
applied; and the spec's concrete example behaves as stated (a
2023-01..2023-06 subscription is listed for the window [2023-05,
2023-12] but not for [2023-07, 2023-12]). -/
theorem list_overlap_filter_spec (db : List Subscription) (f : ListFilter)
    (lo hi : Date) (hlo : f.activePeriodFrom = some lo)
    (hhi : f.activePeriodTo = some hi) (hlim : f.limit ≤ 0)
    (hoff : f.offset ≤ 0) :
    (∀ (s : Subscription) (L : List Subscription),
      Storage.listSubscriptions db f = .ok L →
        (s ∈ L ↔ s ∈ db ∧ specOtherPass f s = true ∧ specOverlap lo hi s)) ∧
    (∀ (g : ListFilter) (s : Subscription),
      g.activePeriodFrom = none ∨ g.activePeriodTo = none →
        Storage.matchesFilter g s = specOtherPass g s) ∧
    Storage.listSubscriptions
      [{ id := "x", serviceName := "tv", price := 10, userId := "u",
         startMonth := ⟨2023, 1, 1⟩, endMonth := some ⟨2023, 6, 1⟩ }]
      { userId := none, serviceName := none, startMonthFrom := none,
        startMonthTo := none, activePeriodFrom := some ⟨2023, 5, 1⟩,
        activePeriodTo := some ⟨2023, 12, 1⟩, limit := 0, offset := 0 } =
      .ok [{ id := "x", serviceName := "tv", price := 10, userId := "u",
             startMonth := ⟨2023, 1, 1⟩, endMonth := some ⟨2023, 6, 1⟩ }] ∧
    Storage.listSubscriptions
      [{ id := "x", serviceName := "tv", price := 10, userId := "u",
         startMonth := ⟨2023, 1, 1⟩, endMonth := some ⟨2023, 6, 1⟩ }]
      { userId := none, serviceName := none, startMonthFrom := none,
        startMonthTo := none, activePeriodFrom := some ⟨2023, 7, 1⟩,
        activePeriodTo := some ⟨2023, 12, 1⟩, limit := 0, offset := 0 } =
      .ok [] := by
  refine ⟨?_, ?_, rfl, rfl⟩
  · intro s L hL
    have hL2 : Storage.orderByStart (db.filter (Storage.matchesFilter f)) = L := by
      simp only [Storage.listSubscriptions, paginate_id hlim hoff] at hL
      exact Except.ok.inj hL
    subst hL2
    rw [mem_orderByStart, List.mem_filter,
      matchesFilter_overlap_iff hlo hhi s]
  · intro g s hnone
    unfold Storage.matchesFilter specOtherPass Storage.matchesActive
    rcases hnone with h | h <;> rw [h]
    · cases g.activePeriodTo <;> simp [Bool.and_assoc]
    · cases g.activePeriodFrom <;> simp [Bool.and_assoc]

/-- Witness for C3 at a concrete database and filter. -/
theorem list_overlap_filter_spec_witness :
    ({ id := "x", serviceName := "tv", price := 10, userId := "u",
       startMonth := ⟨2023, 1, 1⟩,
       endMonth := some ⟨2023, 6, 1⟩ } : Subscription) ∈
      [({ id := "x", serviceName := "tv", price := 10, userId := "u",
          startMonth := ⟨2023, 1, 1⟩,
          endMonth := some ⟨2023, 6, 1⟩ } : Subscription)] ∧
    specOtherPass
      { userId := none, serviceName := none, startMonthFrom := none,
        startMonthTo := none, activePeriodFrom := some ⟨2023, 5, 1⟩,
        activePeriodTo := some ⟨2023, 12, 1⟩, limit := 0, offset := 0 }
      { id := "x", serviceName := "tv", price := 10, userId := "u",
        startMonth := ⟨2023, 1, 1⟩, endMonth := some ⟨2023, 6, 1⟩ } = true ∧
    specOverlap ⟨2023, 5, 1⟩ ⟨2023, 12, 1⟩
      { id := "x", serviceName := "tv", price := 10, userId := "u",
        startMonth := ⟨2023, 1, 1⟩, endMonth := some ⟨2023, 6, 1⟩ } :=
  ((list_overlap_filter_spec
    [{ id := "x", serviceName := "tv", price := 10, userId := "u",
       startMonth := ⟨2023, 1, 1⟩, endMonth := some ⟨2023, 6, 1⟩ }]
    { userId := none, serviceName := none, startMonthFrom := none,
      startMonthTo := none, activePeriodFrom := some ⟨2023, 5, 1⟩,
      activePeriodTo := some ⟨2023, 12, 1⟩, limit := 0, offset := 0 }
    ⟨2023, 5, 1⟩ ⟨2023, 12, 1⟩ rfl rfl (by decide) (by decide)).1
    { id := "x", serviceName := "tv", price := 10, userId := "u",
      startMonth := ⟨2023, 1, 1⟩, endMonth := some ⟨2023, 6, 1⟩ }
    [{ id := "x", serviceName := "tv", price := 10, userId := "u",
       startMonth := ⟨2023, 1, 1⟩, endMonth := some ⟨2023, 6, 1⟩ }]
    rfl).1 (by decide)

/-! Claims C6 and C7: update and delete at the store. -/

/-- Claim C6: updating an existing id replaces exactly serviceName,
price, startMonth and endMonth, keeps the stored id and userId, and
returns the resulting record; rows with a different id are untouched;
updating an absent id fails with `NotFound` and changes no record. -/
theorem update_replaces_fields_and_preserves_identity
    (db : List Subscription) (id : String) (input : UpdateInput) :
    (∀ r, db.find? (fun x => x.id = id) = some r →
      ∃ u, (Storage.updateSubscription db id input).1 = .ok u ∧
        u.id = r.id ∧ u.userId = r.userId ∧
        u.serviceName = input.serviceName ∧ u.price = input.price ∧
        u.startMonth = input.startMonth ∧ u.endMonth = input.endMonth) ∧
    List.Forall₂ (fun old new =>
        (old.id ≠ id → new = old) ∧
        (old.id = id → new.id = old.id ∧ new.userId = old.userId ∧
          new.serviceName = input.serviceName ∧ new.price = input.price ∧
          new.startMonth = input.startMonth ∧ new.endMonth = input.endMonth))
      db (Storage.updateSubscription db id input).2 ∧
    ((∀ r ∈ db, r.id ≠ id) →
      Storage.updateSubscription db id input = (.error .notFound, db)) := by
  have hframe : ∀ old : Subscription,
      (old.id ≠ id →
        (if old.id = id then Storage.applyUpdate input old else old) = old) ∧
      (old.id = id →
        (if old.id = id then Storage.applyUpdate input old else old).id =
            old.id ∧
          (if old.id = id then Storage.applyUpdate input old
            else old).userId = old.userId ∧
          (if old.id = id then Storage.applyUpdate input old
            else old).serviceName = input.serviceName ∧
          (if old.id = id then Storage.applyUpdate input old
            else old).price = input.price ∧
          (if old.id = id then Storage.applyUpdate input old
            else old).startMonth = input.startMonth ∧
          (if old.id = id then Storage.applyUpdate input old
            else old).endMonth = input.endMonth) := by
    intro old
    constructor
    · intro hne; rw [if_neg hne]
    · intro heq; rw [if_pos heq]
      exact ⟨rfl, rfl, rfl, rfl, rfl, rfl⟩
  refine ⟨?_, ?_, ?_⟩
  · intro r hr
    refine ⟨Storage.applyUpdate input r, ?_, rfl, rfl, rfl, rfl, rfl, rfl⟩
    simp only [Storage.updateSubscription, hr]
  · cases hfind : db.find? (fun x => x.id = id) with
    | none =>
        simp only [Storage.updateSubscription, hfind]
        rw [List.forall₂_same]
        intro old hold
        have hne : old.id ≠ id := by
          have h := List.find?_eq_none.1 hfind old hold
          simpa using h
        exact ⟨fun _ => rfl, fun heq => absurd heq hne⟩
    | some r =>
        simp only [Storage.updateSubscription, hfind]
        rw [List.forall₂_map_right_iff, List.forall₂_same]
        intro old _
        exact hframe old
  · intro habsent
    have hfind : db.find? (fun x => x.id = id) = none :=
      List.find?_eq_none.2 (fun x hx => by simpa using habsent x hx)
    simp only [Storage.updateSubscription, hfind]

/-- Witness for C6 at a concrete one-row store. -/
theorem update_replaces_fields_and_preserves_identity_witness :
    ∃ u, (Storage.updateSubscription
      [{ id := "a", serviceName := "tv", price := 10, userId := "u",
         startMonth := ⟨2023, 1, 1⟩, endMonth := none }] "a"
      { serviceName := "cinema", price := 20,
        startMonth := ⟨2023, 2, 1⟩, endMonth := some ⟨2023, 9, 1⟩ }).1 =
        .ok u ∧
      u.id = ({ id := "a", serviceName := "tv", price := 10, userId := "u",
                startMonth := ⟨2023, 1, 1⟩,
                endMonth := none } : Subscription).id ∧
      u.userId = ({ id := "a", serviceName := "tv", price := 10,
                    userId := "u", startMonth := ⟨2023, 1, 1⟩,
                    endMonth := none } : Subscription).userId ∧
      u.serviceName = "cinema" ∧ u.price = 20 ∧
      u.startMonth = ⟨2023, 2, 1⟩ ∧ u.endMonth = some ⟨2023, 9, 1⟩ :=
  (update_replaces_fields_and_preserves_identity
    [{ id := "a", serviceName := "tv", price := 10, userId := "u",
       startMonth := ⟨2023, 1, 1⟩, endMonth := none }] "a"
    { serviceName := "cinema", price := 20, startMonth := ⟨2023, 2, 1⟩,
      endMonth := some ⟨2023, 9, 1⟩ }).1
    { id := "a", serviceName := "tv", price := 10, userId := "u",
      startMonth := ⟨2023, 1, 1⟩, endMonth := none } rfl

/-- Claim C7: delete fails with `NotFound` exactly when no stored row
has the given id; when a row exists it succeeds, and a `Get` of the same
id against the resulting store fails with `NotFound`. -/
theorem delete_notfound_iff_absent (db : List Subscription) (id : String) :
    ((Storage.deleteSubscription db id).1 = .error .notFound ↔
      ∀ r ∈ db, r.id ≠ id) ∧
    ((∃ r ∈ db, r.id = id) →
      (Storage.deleteSubscription db id).1 = .ok () ∧
      Storage.getSubscription (Storage.deleteSubscription db id).2 id =
        .error .notFound) := by
  constructor
  · constructor
    · intro hdel r hr
      by_cases hc : db.countP (fun r => r.id = id) = 0
      · have h := List.countP_eq_zero.1 hc r hr
        simpa using h
      · simp only [Storage.deleteSubscription] at hdel
        rw [if_neg hc] at hdel
        exact absurd hdel (by simp)
    · intro habsent
      have hc : db.countP (fun r => r.id = id) = 0 :=
        List.countP_eq_zero.2 (fun r hr => by simpa using habsent r hr)
      simp only [Storage.deleteSubscription]
      rw [if_pos hc]
  · rintro ⟨r, hr, hid⟩
    have hc : db.countP (fun r => r.id = id) ≠ 0 := by
      intro hzero
      have h := List.countP_eq_zero.1 hzero r hr
      simp [hid] at h
    constructor
    · simp only [Storage.deleteSubscription]
      rw [if_neg hc]
    · simp only [Storage.deleteSubscription]
      rw [if_neg hc]
      simp only [Storage.getSubscription]
      have hnone : (db.filter (fun r => !(r.id = id : Bool))).find?
          (fun r => r.id = id) = none := by
        rw [List.find?_eq_none]
        intro x hx
        have hmem := List.mem_filter.1 hx
        simpa using hmem.2
      rw [hnone]

/-- Witness for C7 at a concrete one-row store. -/
theorem delete_notfound_iff_absent_witness :
    (Storage.deleteSubscription
      [{ id := "a", serviceName := "tv", price := 10, userId := "u",
         startMonth := ⟨2023, 1, 1⟩, endMonth := none }] "a").1 = .ok () ∧
    Storage.getSubscription
      (Storage.deleteSubscription
        [{ id := "a", serviceName := "tv", price := 10, userId := "u",
           startMonth := ⟨2023, 1, 1⟩, endMonth := none }] "a").2 "a" =
      .error .notFound :=
  (delete_notfound_iff_absent
    [{ id := "a", serviceName := "tv", price := 10, userId := "u",
       startMonth := ⟨2023, 1, 1⟩, endMonth := none }] "a").2
    ⟨{ id := "a", serviceName := "tv", price := 10, userId := "u",
       startMonth := ⟨2023, 1, 1⟩, endMonth := none }, by simp, rfl⟩

/-- Claim C8: every service operation surfaces a repository error to the
caller unchanged (in particular `NotFound` is passed through), never
converting it into a success. -/
theorem service_propagates_repo_errors (repo : Repo) (e : RepoErr)
    (input : CreateInput) (id : String) (uinput : UpdateInput)
    (f : ListFilter) (sf : SummaryFilter) :
    (repo.createSubscription input = .error e →
      Service.create repo input = .error e) ∧
    (repo.getSubscription id = .error e →
      Service.get repo id = .error e) ∧
    (repo.updateSubscription id uinput = .error e →
      Service.update repo id uinput = .error e) ∧
    (repo.deleteSubscription id = .error e →
      Service.delete repo id = .error e) ∧
    (repo.listSubscriptions f = .error e →
      Service.list repo f = .error e) ∧
    (repo.listSubscriptions (Service.sumListFilter sf) = .error e →
      Service.sum repo sf = .error e) := by
  refine ⟨?_, ?_, ?_, ?_, ?_, ?_⟩ <;> intro h
  · simp only [Service.create, h]
  · simp only [Service.get, h]
  · simp only [Service.update, h]
  · simp only [Service.delete, h]
  · simp only [Service.list, h]
  · simp only [Service.sum, h]

/-- Witness for C8 at a repository whose operations all fail. -/
theorem service_propagates_repo_errors_witness :
    Service.get
      { createSubscription := fun _ => .error .notFound
        getSubscription := fun _ => .error .notFound
        updateSubscription := fun _ _ => .error .notFound
        deleteSubscription := fun _ => .error .notFound
        listSubscriptions := fun _ => .error (.failure "db down") }
      "a" = .error .notFound ∧
    Service.sum
      { createSubscription := fun _ => .error .notFound
        getSubscription := fun _ => .error .notFound
        updateSubscription := fun _ _ => .error .notFound
        deleteSubscription := fun _ => .error .notFound
        listSubscriptions := fun _ => .error (.failure "db down") }
      { userId := none, serviceName := none,
        periodStart := ⟨2023, 1, 1⟩, periodEnd := ⟨2023, 3, 1⟩ } =
      .error (.failure "db down") :=
  ⟨(service_propagates_repo_errors
      { createSubscription := fun _ => .error .notFound
        getSubscription := fun _ => .error .notFound
        updateSubscription := fun _ _ => .error .notFound
        deleteSubscription := fun _ => .error .notFound
        listSubscriptions := fun _ => .error (.failure "db down") }
      .notFound
      { serviceName := "tv", price := 1, userId := "u",
        startMonth := ⟨2023, 1, 1⟩, endMonth := none }
      "a"
      { serviceName := "tv", price := 1, startMonth := ⟨2023, 1, 1⟩,
        endMonth := none }
      { userId := none, serviceName := none, startMonthFrom := none,
        startMonthTo := none, activePeriodFrom := none,
        activePeriodTo := none, limit := 0, offset := 0 }
      { userId := none, serviceName := none,
        periodStart := ⟨2023, 1, 1⟩, periodEnd := ⟨2023, 3, 1⟩ }).2.1 rfl,
   (service_propagates_repo_errors
      { createSubscription := fun _ => .error .notFound
        getSubscription := fun _ => .error .notFound
        updateSubscription := fun _ _ => .error .notFound
        deleteSubscription := fun _ => .error .notFound
        listSubscriptions := fun _ => .error (.failure "db down") }
      (.failure "db down")
      { serviceName := "tv", price := 1, userId := "u",
        startMonth := ⟨2023, 1, 1⟩, endMonth := none }
      "a"
      { serviceName := "tv", price := 1, startMonth := ⟨2023, 1, 1⟩,
        endMonth := none }
      { userId := none, serviceName := none, startMonthFrom := none,
        startMonthTo := none, activePeriodFrom := none,
        activePeriodTo := none, limit := 0, offset := 0 }
      { userId := none, serviceName := none,
        periodStart := ⟨2023, 1, 1⟩, periodEnd := ⟨2023, 3, 1⟩ }).2.2.2.2.2
      rfl⟩

/-! Claim C9: the uuid package. Go strings are byte sequences; `range`
over a (well-formed) string yields runes together with their byte
offsets, and `len` is the byte count. The model below keeps exactly that
structure: a string is its rune sequence, lengths are UTF-8 byte
lengths, and the validation loop advances by the encoded width. -/

namespace GoUuid

/-- A Go rune (Unicode code point), as a natural number. -/
abbrev Rune := Nat

/-- A Go string, modelled as its sequence of runes (covering the
well-formed UTF-8 strings the callers pass in). -/
abbrev GoStr := List Rune

/-- The UTF-8 byte length of one rune. -/
def utf8Len (r : Rune) : Nat :=
  if r < 0x80 then 1 else if r < 0x800 then 2
  else if r < 0x10000 then 3 else 4

/-- Go `len(s)`: the byte length of the string. -/
def goLen (s : GoStr) : Nat :=
  (s.map utf8Len).sum

/-- Modelled from Go's `unicode.IsDigit`: membership in the Unicode
decimal-digit category Nd. The listed ranges are the Nd ranges of the
Basic Multilingual Plane; the supplementary planes are elided, which no
statement below depends on (the table is only ever evaluated on ASCII
runes and on U+0660). -/
def ndRanges : List (Rune × Rune) :=
  [(0x30, 0x39), (0x660, 0x669), (0x6F0, 0x6F9), (0x7C0, 0x7C9),
   (0x966, 0x96F), (0x9E6, 0x9EF), (0xA66, 0xA6F), (0xAE6, 0xAEF),
   (0xB66, 0xB6F), (0xBE6, 0xBEF), (0xC66, 0xC6F), (0xCE6, 0xCEF),
   (0xD66, 0xD6F), (0xDE6, 0xDEF), (0xE50, 0xE59), (0xED0, 0xED9),
   (0xF20, 0xF29), (0x1040, 0x1049), (0x1090, 0x1099),
   (0x17E0, 0x17E9), (0x1810, 0x1819), (0x1946, 0x194F),
   (0x19D0, 0x19D9), (0x1A80, 0x1A89), (0x1A90, 0x1A99),
   (0x1B50, 0x1B59), (0x1BB0, 0x1BB9), (0x1C40, 0x1C49),
   (0x1C50, 0x1C59), (0xA620, 0xA629), (0xA8D0, 0xA8D9),
   (0xA900, 0xA909), (0xA9D0, 0xA9D9), (0xA9F0, 0xA9F9),
   (0xAA50, 0xAA59), (0xABF0, 0xABF9), (0xFF10, 0xFF19)]

/-- Go `unicode.IsDigit`. -/
def unicodeIsDigit (r : Rune) : Bool :=
  ndRanges.any (fun p => decide (p.1 ≤ r) && decide (r ≤ p.2))

/-- `isHex` from the uuid package: `unicode.IsDigit(r) || (r >= 'a' &&
r <= 'f')`. -/
def isHex (r : Rune) : Bool :=
  unicodeIsDigit r || (decide (0x61 ≤ r) && decide (r ≤ 0x66))

/-- Modelled from Go's `unicode.ToLower` as applied rune-wise by
`strings.ToLower`: the ASCII mapping `A`..`Z` to `a`..`z`; non-ASCII
simple case mappings are elided (identity), faithful for every rune the
statements below apply it to (ASCII, and caseless runes such as
U+0660 and `-`). -/
def toLowerRune (r : Rune) : Rune :=
  if 0x41 ≤ r ∧ r ≤ 0x5A then r + 32 else r

/-- Go `strings.ToLower`, rune by rune. -/
def goToLower (s : GoStr) : GoStr :=
  s.map toLowerRune

/-- The dash positions of the `switch` in the validation loop. -/
def dashPos (i : Nat) : Prop :=
  i = 8 ∨ i = 13 ∨ i = 18 ∨ i = 23

instance (i : Nat) : Decidable (dashPos i) := by
  unfold dashPos; infer_instance

/-- The validation loop of `Parse`: `i` is the byte offset of the
current rune, exactly as Go's `range` over the string yields it, and it
advances by the rune's encoded width. -/
def checkFrom (i : Nat) : GoStr → Bool
  | [] => true
  | c :: rest =>
      (if dashPos i then decide (c = 0x2D) else isHex c) &&
        checkFrom (i + utf8Len c) rest

/-- `uuid.Parse`: reject unless the byte length is 36, lowercase, then
validate the lowered string rune by rune at byte offsets; on success the
result is the lowered string. -/
def parse (s : GoStr) : Except Unit GoStr :=
  if goLen s ≠ 36 then .error ()
  else
    let lower := goToLower s
    if checkFrom 0 lower then .ok lower else .error ()

/-- The claim's wording: an ASCII hexadecimal digit in either case. -/
def asciiHexEither (r : Rune) : Bool :=
  (decide (0x30 ≤ r) && decide (r ≤ 0x39)) ||
    (decide (0x61 ≤ r) && decide (r ≤ 0x66)) ||
    (decide (0x41 ≤ r) && decide (r ≤ 0x46))

/-- The claim's description of the accepted strings: length 36, `-` at
indices 8, 13, 18, 23, hexadecimal digits in either case elsewhere. -/
def claimedForm (s : GoStr) : Prop :=
  s.length = 36 ∧ ∀ i (h : i < s.length),
    (dashPos i → s.get ⟨i, h⟩ = 0x2D) ∧
    (¬ dashPos i → asciiHexEither (s.get ⟨i, h⟩) = true)

instance (s : GoStr) : Decidable (claimedForm s) := by
  unfold claimedForm; infer_instance

/-- Strings whose runes are all ASCII. -/
def asciiStr (s : GoStr) : Prop :=
  ∀ r ∈ s, r < 0x80

instance (s : GoStr) : Decidable (asciiStr s) := by
  unfold asciiStr; infer_instance

theorem utf8Len_ascii {r : Rune} (h : r < 0x80) : utf8Len r = 1 := by
  unfold utf8Len
  rw [if_pos h]

theorem goLen_ascii {s : GoStr} (hs : asciiStr s) : goLen s = s.length := by
  induction s with
  | nil => rfl
  | cons c cs ih =>
      have hc : c < 0x80 := hs c (List.mem_cons_self c cs)
      have hcs : asciiStr cs := fun r hr => hs r (List.mem_cons_of_mem c hr)
      simp only [goLen, List.map_cons, List.sum_cons, List.length_cons] at *
      rw [utf8Len_ascii hc, ih hcs]
      omega

theorem toLowerRune_dash_iff : ∀ r : Rune, r < 0x80 →
    (toLowerRune r = 0x2D ↔ r = 0x2D) := by decide

theorem toLowerRune_hex_iff : ∀ r : Rune, r < 0x80 →
    (isHex (toLowerRune r) = true ↔ asciiHexEither r = true) := by decide

theorem toLowerRune_idem : ∀ r : Rune, r < 0x80 →
    toLowerRune (toLowerRune r) = toLowerRune r := by decide

theorem toLowerRune_ascii : ∀ r : Rune, r < 0x80 →
    toLowerRune r < 0x80 := by decide

theorem goToLower_ascii {s : GoStr} (hs : asciiStr s) :
    asciiStr (goToLower s) := by
  intro r hr
  simp only [goToLower, List.mem_map] at hr
  obtain ⟨x, hx, rfl⟩ := hr
  exact toLowerRune_ascii x (hs x hx)

theorem goToLower_idem {s : GoStr} (hs : asciiStr s) :
    goToLower (goToLower s) = goToLower s := by
  simp only [goToLower, List.map_map]
  exact List.map_congr_left (fun x hx => toLowerRune_idem x (hs x hx))

/-- On ASCII strings every rune is one byte wide, so the loop's byte
offsets are the rune indices shifted by the starting offset. -/
theorem checkFrom_ascii_iff {s : GoStr} (hs : asciiStr s) (n : Nat) :
    checkFrom n s = true ↔ ∀ i (h : i < s.length),
      (dashPos (n + i) → s.get ⟨i, h⟩ = 0x2D) ∧
      (¬ dashPos (n + i) → isHex (s.get ⟨i, h⟩) = true) := by
  induction s generalizing n with
  | nil =>
      simp only [checkFrom, List.length_nil]
      constructor
      · intro _ i h
        exact absurd h (by omega)
      · intro _
        trivial
  | cons c cs ih =>
      have hc : c < 0x80 := hs c (List.mem_cons_self c cs)
      have hcs : asciiStr cs := fun r hr => hs r (List.mem_cons_of_mem c hr)
      simp only [checkFrom, utf8Len_ascii hc, Bool.and_eq_true, ih hcs (n + 1),
        List.length_cons]
      constructor
      · rintro ⟨h1, h2⟩ i h
        cases i with
        | zero =>
            simp only [Nat.add_zero, List.get_cons_zero]
            by_cases hd : dashPos n
            · rw [if_pos hd] at h1
              exact ⟨fun _ => of_decide_eq_true h1, fun hnd => absurd hd hnd⟩
            · rw [if_neg hd] at h1
              exact ⟨fun hdd => absurd hdd hd, fun _ => h1⟩
        | succ j =>
            have hj : j < cs.length := by omega
            have hthis := h2 j hj
            have harith : n + 1 + j = n + (j + 1) := by omega
            rw [harith] at hthis
            simpa [List.get_cons_succ] using hthis
      · intro hall
        constructor
        · have h0 := hall 0 (by omega)
          simp only [Nat.add_zero, List.get_cons_zero] at h0
          by_cases hd : dashPos n
          · rw [if_pos hd]
            exact decide_eq_true (h0.1 hd)
          · rw [if_neg hd]
            exact h0.2 hd
        · intro j hj
          have hthis := hall (j + 1) (by omega)
          have harith : n + (j + 1) = n + 1 + j := by omega
          rw [harith] at hthis
          simpa [List.get_cons_succ] using hthis

/-- Success analysis of `parse`: a success means the byte length was 36
and the lowered string passed the loop, and the result is the lowered
string. -/
theorem parse_ok_elim {s u : GoStr} (hu : parse s = .ok u) :
    goLen s = 36 ∧ checkFrom 0 (goToLower s) = true ∧ u = goToLower s := by
  by_cases h36 : goLen s ≠ 36
  · simp only [parse] at hu
    rw [if_pos h36] at hu
    simp at hu
  · simp only [parse] at hu
    rw [if_neg h36] at hu
    by_cases hchk : checkFrom 0 (goToLower s) = true
    · rw [if_pos hchk] at hu
      exact ⟨by omega, hchk, (Except.ok.inj hu).symm⟩
    · rw [if_neg hchk] at hu
      simp at hu

/-- Claim C9 (amended): restricted to ASCII strings, `Parse` succeeds
exactly on those of length 36 with `-` at indices 8, 13, 18, 23 and
hexadecimal digits (either case) elsewhere, returns the input
lowercased, and round-trips (`Parse` of a parsed value returns it
unchanged). -/
theorem parse_ascii_characterization (s : GoStr) (hs : asciiStr s) :
    ((∃ u, parse s = .ok u) ↔ claimedForm s) ∧
    (∀ u, parse s = .ok u → u = goToLower s ∧ parse u = .ok u) := by
  have hlow_ascii : asciiStr (goToLower s) := goToLower_ascii hs
  have hlen : (goToLower s).length = s.length := List.length_map _ _
  have hget : ∀ (i : Nat) (h : i < s.length)
      (h2 : i < (goToLower s).length),
      (goToLower s).get ⟨i, h2⟩ = toLowerRune (s.get ⟨i, h⟩) := by
    intro i h h2
    simp [goToLower, List.getElem_map]
  constructor
  · constructor
    · rintro ⟨u, hu⟩
      obtain ⟨h36, hchk, _⟩ := parse_ok_elim hu
      have hslen : s.length = 36 := by
        rw [goLen_ascii hs] at h36
        exact h36
      refine ⟨hslen, ?_⟩
      intro i h
      have hi2 : i < (goToLower s).length := by omega
      have hci := (checkFrom_ascii_iff hlow_ascii 0).1 hchk i hi2
      simp only [Nat.zero_add] at hci
      rw [hget i h hi2] at hci
      have hsc : s.get ⟨i, h⟩ < 0x80 := hs _ (List.get_mem s i h)
      exact ⟨fun hd => (toLowerRune_dash_iff _ hsc).1 (hci.1 hd),
             fun hnd => (toLowerRune_hex_iff _ hsc).1 (hci.2 hnd)⟩
    · rintro ⟨hslen, hform⟩
      have h36 : goLen s = 36 := by
        rw [goLen_ascii hs]
        exact hslen
      have hchk : checkFrom 0 (goToLower s) = true := by
        rw [checkFrom_ascii_iff hlow_ascii 0]
        intro i hi2
        simp only [Nat.zero_add]
        have h : i < s.length := by omega
        rw [hget i h hi2]
        have hsc : s.get ⟨i, h⟩ < 0x80 := hs _ (List.get_mem s i h)
        have hfi := hform i h
        exact ⟨fun hd => (toLowerRune_dash_iff _ hsc).2 (hfi.1 hd),
               fun hnd => (toLowerRune_hex_iff _ hsc).2 (hfi.2 hnd)⟩
      refine ⟨goToLower s, ?_⟩
      simp only [parse]
      rw [if_neg (by omega), if_pos hchk]
  · intro u hu
    obtain ⟨h36, hchk, hueq⟩ := parse_ok_elim hu
    subst hueq
    refine ⟨rfl, ?_⟩
    have h36b : goLen (goToLower s) = 36 := by
      rw [goLen_ascii hlow_ascii, hlen, ← goLen_ascii hs]
      exact h36
    simp only [parse]
    rw [if_neg (by omega), goToLower_idem hs, if_pos hchk]

/-- Witness for the amended C9 at a concrete well-formed ASCII uuid. -/
theorem parse_ascii_characterization_witness :
    ∃ u, parse
      [0x31, 0x32, 0x33, 0x65, 0x34, 0x35, 0x36, 0x37, 0x2D,
       0x65, 0x38, 0x39, 0x62, 0x2D, 0x31, 0x32, 0x64, 0x33, 0x2D,
       0x61, 0x34, 0x35, 0x36, 0x2D, 0x34, 0x32, 0x36, 0x36, 0x31,
       0x34, 0x31, 0x37, 0x34, 0x30, 0x30, 0x30] = .ok u :=
  ((parse_ascii_characterization
    [0x31, 0x32, 0x33, 0x65, 0x34, 0x35, 0x36, 0x37, 0x2D,
     0x65, 0x38, 0x39, 0x62, 0x2D, 0x31, 0x32, 0x64, 0x33, 0x2D,
     0x61, 0x34, 0x35, 0x36, 0x2D, 0x34, 0x32, 0x36, 0x36, 0x31,
     0x34, 0x31, 0x37, 0x34, 0x30, 0x30, 0x30]
    (by decide)).1).mpr (by decide)

/-- A 36-byte string of four Arabic-Indic digit groups: 20 runes, each
digit U+0660 (2 bytes in UTF-8), with `-` at byte offsets 8, 13, 18, 23. -/
def arabicDigitStr : GoStr :=
  [0x660, 0x660, 0x660, 0x660, 0x2D, 0x660, 0x660, 0x2D, 0x660, 0x660,
   0x2D, 0x660, 0x660, 0x2D, 0x660, 0x660, 0x660, 0x660, 0x660, 0x660]

/-- Counterexample to C9 as stated: `Parse` also succeeds on a 36-byte
string whose 20 characters are Arabic-Indic digits and dashes — it is
not 36 characters long and none of its non-dash characters is an ASCII
hexadecimal digit — because `unicode.IsDigit` accepts every Unicode
decimal digit and the loop indexes bytes, not characters. -/
theorem parse_accepts_unicode_digits_cex :
    parse arabicDigitStr = .ok arabicDigitStr ∧
    goLen arabicDigitStr = 36 ∧
    arabicDigitStr.length = 20 ∧
    (∀ r ∈ arabicDigitStr, r ≠ 0x2D → asciiHexEither r = false) ∧
    ¬ claimedForm arabicDigitStr :=
  ⟨rfl, rfl, rfl, by decide, fun h => absurd h.1 (by decide)⟩

end GoUuid

end EffectiveMobile
